import Mathlib

/-!
Verification of the recursive (Ultimate) Tic-Tac-Toe board-state engine.

The development shallowly embeds the engine's data model and operations:

* `Player`, `BoardResult`, `BoardState` — the result/state enums of `lib.rs`.
* The generic win detector `Board.getState` — the default `get_state` method
  of the `Board` trait in `game/board/mod.rs`.  The method only ever reads
  `self[i].owner()` for `i ∈ [0,9)`, so the embedding parameterises it by the
  owner access function `ow : Nat → Option Player` of the nine indexed cells.
* `InnerBoard`, `RecursiveCell`, `RecursiveBoard` — `game/board/inner.rs`
  and `game/board/recursive.rs`.  Fixed nine-element Rust arrays are embedded
  as functions out of `Fin 9`; a `usize` index access `self[i]` (which panics
  when `i ≥ 9`) is embedded as a total function that returns a default value
  out of range, and theorems about indexed access carry the bound `i < 9`.
* `GameState`, `CellPosition`, `available_moves`, `make_move` — `game/mod.rs`.
* The `FromStr` parser of `InnerBoard` and its error enum — `game/board/inner.rs`
  and `errors.rs`.  Rust's `str::len` is a UTF-8 byte count, embedded via
  `Char.utf8Size`.
* `legacyGetState` — the default `get_state` of the older `Board` trait in
  `board/mod.rs`, which reads cells through `get_cell` instead of indexing.
-/

namespace UltimateTTT

instance {ε α : Type _} [DecidableEq ε] [DecidableEq α] : DecidableEq (Except ε α) := fun a b =>
  match a, b with
  | Except.ok x, Except.ok y =>
    if h : x = y then isTrue (by rw [h]) else isFalse (fun hh => h (Except.ok.inj hh))
  | Except.error x, Except.error y =>
    if h : x = y then isTrue (by rw [h]) else isFalse (fun hh => h (Except.error.inj hh))
  | Except.ok _, Except.error _ => isFalse (fun hh => Except.noConfusion hh)
  | Except.error _, Except.ok _ => isFalse (fun hh => Except.noConfusion hh)

/-- The `Player` from `lib.rs`: the two players, circle (`O`) and cross (`X`). -/
inductive Player where
  | Circle : Player
  | Cross : Player
deriving DecidableEq, Repr

instance : Fintype Player :=
  ⟨⟨{Player.Circle, Player.Cross}, by decide⟩, fun p => by cases p <;> decide⟩

/-- The `Player::next` from `lib.rs`: the next player in the playing order. -/
def Player.next : Player → Player
  | Player.Circle => Player.Cross
  | Player.Cross => Player.Circle

/-- The `BoardResult` from `lib.rs`: result of a finished board. -/
inductive BoardResult where
  | Draw : BoardResult
  | Winner : Player → BoardResult
deriving DecidableEq, Repr

/-- The `BoardState` from `lib.rs`: state of a (possibly ongoing) board. -/
inductive BoardState where
  | InProgress : BoardState
  | Over : BoardResult → BoardState
deriving DecidableEq, Repr

/-- The default `Cell::is_available` of the `Cell` trait in
`game/board/cell.rs`, expressed on the value returned by `owner()`:
`self.owner().is_none()`.  No type in the repository overrides this default. -/
def Cell.defaultIsAvailable (owner : Option Player) : Bool :=
  owner.isNone

/-! ## The win detector (`Board::get_state`, `game/board/mod.rs`)

The source iterates `for group in 0..3`, checking the row `{0,1,2}+3*group`
and the column `{0,3,6}+group`, then the two diagonals through index 4, then
the draw loop over all nine cells.  Each row/column check reads the first cell
of the line as candidate winner and compares every cell of the line to it,
short-circuiting on the first mismatch. -/

/-- One row check of `Board::get_state`: candidate winner `self[group*3]`,
compared against `self[group*3 + cell]` for `cell in 0..3`. -/
def rowCheck (ow : Nat → Option Player) (group : Nat) : Option Player :=
  match ow (group * 3) with
  | none => none
  | some p =>
    if (List.range 3).all (fun cell => ow (group * 3 + cell) == some p) then some p
    else none

/-- One column check of `Board::get_state`: candidate winner `self[group]`,
compared against `self[group + cell*3]` for `cell in 0..3`. -/
def colCheck (ow : Nat → Option Player) (group : Nat) : Option Player :=
  match ow group with
  | none => none
  | some p =>
    if (List.range 3).all (fun cell => ow (group + cell * 3) == some p) then some p
    else none

/-- The diagonal check of `Board::get_state`: both diagonals pass through the
center cell 4; if it has an owner and the extremities `0,8` or `2,6` match it,
that owner wins. -/
def diagCheck (ow : Nat → Option Player) : Option Player :=
  match ow 4 with
  | none => none
  | some p =>
    if ((ow 0 == some p) && (ow 8 == some p)) || ((ow 2 == some p) && (ow 6 == some p))
    then some p
    else none

/-- The early-return cascade of `Board::get_state`: for each group `0,1,2` the
row check then the column check, then the diagonals, in source order. -/
def winCheck (ow : Nat → Option Player) : Option Player :=
  match rowCheck ow 0 with
  | some p => some p
  | none =>
  match colCheck ow 0 with
  | some p => some p
  | none =>
  match rowCheck ow 1 with
  | some p => some p
  | none =>
  match colCheck ow 1 with
  | some p => some p
  | none =>
  match rowCheck ow 2 with
  | some p => some p
  | none =>
  match colCheck ow 2 with
  | some p => some p
  | none => diagCheck ow

/-- The default `Board::get_state` of `game/board/mod.rs`, as a function of the
owners reported by the nine indexed cells: the win cascade, then the draw loop
(`is_draw` stays true iff no cell's owner `is_none`), else `InProgress`. -/
def Board.getState (ow : Nat → Option Player) : BoardState :=
  match winCheck ow with
  | some p => BoardState.Over (BoardResult.Winner p)
  | none =>
    if (List.range 9).all (fun cell => (ow cell).isSome) then BoardState.Over BoardResult.Draw
    else BoardState.InProgress

/-! ## The boards (`game/board/inner.rs`, `game/board/recursive.rs`) -/

/-- The `InnerBoard` from `game/board/inner.rs`: a flat array of nine leaf cells,
each an `Option<Player>`. -/
structure InnerBoard where
  cells : Fin 9 → Option Player

instance : DecidableEq InnerBoard := fun a b =>
  decidable_of_iff (a.cells = b.cells) (by cases a; cases b; simp)

/-- The `InnerBoard::new`: all nine leaf cells empty. -/
def InnerBoard.new : InnerBoard := ⟨fun _ => none⟩

/-- The `Index<usize> for InnerBoard` (`&self.cells[cell]`); the source panics for
`cell ≥ 9`, embedded as returning `none` out of range. -/
def InnerBoard.get (b : InnerBoard) (cell : Nat) : Option Player :=
  if h : cell < 9 then b.cells ⟨cell, h⟩ else none

/-- The `InnerBoard::set_cell` (also `IndexMut` assignment `self.cells[cell] = owner`);
the source panics for `cell ≥ 9`, embedded as a no-op out of range. -/
def InnerBoard.set_cell (b : InnerBoard) (cell : Nat) (owner : Option Player) : InnerBoard :=
  if h : cell < 9 then ⟨Function.update b.cells ⟨cell, h⟩ owner⟩ else b

/-- The `Board::get_state` instantiated at `InnerBoard`: the `Cell` impl for
`Option<Player>` reports itself as owner. -/
def InnerBoard.get_state (b : InnerBoard) : BoardState :=
  Board.getState (fun i => b.get i)

/-- The `Board::available_cells` instantiated at `InnerBoard`:
`cells().enumerate().filter(is_available)`, where a leaf cell's (default)
`is_available` is `owner().is_none()`. -/
def InnerBoard.available_cells (b : InnerBoard) : List (Nat × Option Player) :=
  ((List.range 9).map (fun i => (i, b.get i))).filter
    (fun c => Cell.defaultIsAvailable c.2)

/-- The `RecursiveCell` from `game/board/recursive.rs`: an `InnerBoard` together
with a cached `BoardState` of that board. -/
structure RecursiveCell where
  board : InnerBoard
  state : BoardState
deriving DecidableEq

/-- The `RecursiveCell::new`: empty board, cached state `InProgress`. -/
def RecursiveCell.new : RecursiveCell := ⟨InnerBoard.new, BoardState.InProgress⟩

/-- The `RecursiveCell::set_cell`: writes the leaf cell through `IndexMut`, then
unconditionally recomputes the cache from the mutated inner board. -/
def RecursiveCell.set_cell (c : RecursiveCell) (cell : Nat) (owner : Option Player) :
    RecursiveCell :=
  let board := c.board.set_cell cell owner
  ⟨board, board.get_state⟩

/-- The `Cell::owner` for `RecursiveCell`: the winner if the cached state is a win,
`none` for an in-progress or drawn sub-game. -/
def RecursiveCell.owner (c : RecursiveCell) : Option Player :=
  match c.state with
  | BoardState.InProgress => none
  | BoardState.Over BoardResult.Draw => none
  | BoardState.Over (BoardResult.Winner p) => some p

/-- The `Cell::is_available` for `RecursiveCell`: the `impl Cell for RecursiveCell`
block does not override the trait default, so it is `owner().is_none()`. -/
def RecursiveCell.is_available (c : RecursiveCell) : Bool :=
  Cell.defaultIsAvailable c.owner

/-- The `From<InnerBoard> for RecursiveCell`: caches `value.get_state()`. -/
def RecursiveCell.fromInner (value : InnerBoard) : RecursiveCell :=
  ⟨value, value.get_state⟩

/-- The `CellPosition` from `game/mod.rs`: an outer-cell index and an inner-cell
index addressing one leaf cell of the recursive board. -/
structure CellPosition where
  outer_cell : Nat
  inner_cell : Nat
deriving DecidableEq, Repr

/-- The `CellPosition::new`; the source asserts `outer_cell < 9 && inner_cell < 9`.
All positions the engine constructs satisfy the assertion; theorems about
arbitrary positions carry the bounds explicitly. -/
def CellPosition.new (outer_cell : Nat) (inner_cell : Nat) : CellPosition :=
  ⟨outer_cell, inner_cell⟩

/-- The `RecursiveBoard` from `game/board/recursive.rs`: nine `RecursiveCell`s. -/
structure RecursiveBoard where
  cells : Fin 9 → RecursiveCell

instance : DecidableEq RecursiveBoard := fun a b =>
  decidable_of_iff (a.cells = b.cells) (by cases a; cases b; simp)

/-- The `RecursiveBoard::new`: nine fresh recursive cells. -/
def RecursiveBoard.new : RecursiveBoard := ⟨fun _ => RecursiveCell.new⟩

/-- The `Index<usize> for RecursiveBoard`; the source panics for `cell ≥ 9`,
embedded as returning a fresh cell out of range. -/
def RecursiveBoard.get (b : RecursiveBoard) (cell : Nat) : RecursiveCell :=
  if h : cell < 9 then b.cells ⟨cell, h⟩ else RecursiveCell.new

/-- The `RecursiveBoard::set_cell`: routes to
`self[position.outer_cell].set_cell(position.inner_cell, owner)`. -/
def RecursiveBoard.set_cell (b : RecursiveBoard) (position : CellPosition)
    (owner : Option Player) : RecursiveBoard :=
  if h : position.outer_cell < 9 then
    ⟨Function.update b.cells ⟨position.outer_cell, h⟩
      ((b.get position.outer_cell).set_cell position.inner_cell owner)⟩
  else b

/-- The `Board::get_state` instantiated at `RecursiveBoard`: the owners are the
cached owners of the nine recursive cells. -/
def RecursiveBoard.get_state (b : RecursiveBoard) : BoardState :=
  Board.getState (fun i => (b.get i).owner)

/-- The `Board::available_cells` instantiated at `RecursiveBoard`. -/
def RecursiveBoard.available_cells (b : RecursiveBoard) : List (Nat × RecursiveCell) :=
  ((List.range 9).map (fun i => (i, b.get i))).filter
    (fun c => c.2.is_available)

/-! ## The game state (`game/mod.rs`) -/

/-- The `GameState` from `game/mod.rs`: the recursive board, the forced outer cell
(`None` when any ongoing cell may be chosen), and the player to move. -/
structure GameState where
  board : RecursiveBoard
  cell_to_play : Option Nat
  player_turn : Player
deriving DecidableEq

/-- The `GameState::new`: empty board, no forced cell, circle to move. -/
def GameState.new : GameState :=
  ⟨RecursiveBoard.new, none, Player.Circle⟩

/-- The `GameState::available_moves`.  In the constrained branch the source first
asserts that the forced cell is available; the assertion aborts rather than
changing the returned value, so the embedding returns the same list and the
theorems that concern the constrained mode carry the asserted condition as a
hypothesis. -/
def GameState.available_moves (g : GameState) : List CellPosition :=
  match g.cell_to_play with
  | some cell =>
    ((g.board.get cell).board.available_cells).map (fun c => CellPosition.new cell c.1)
  | none =>
    (g.board.available_cells).flatMap
      (fun x => (x.2.board.available_cells).map (fun c => CellPosition.new x.1 c.1))

/-- The `GameState::make_move`: returns `Err(())` (leaving the state untouched)
when the position is not among the available moves, otherwise writes the
active player into the addressed leaf cell and advances the turn.  The Rust
method mutates `&mut self`; the embedding returns the result paired with the
post-call state. -/
def GameState.make_move (g : GameState) (position : CellPosition) :
    Except Unit Unit × GameState :=
  if position ∈ g.available_moves then
    (Except.ok (),
      { g with
        board := g.board.set_cell position (some g.player_turn),
        player_turn := g.player_turn.next })
  else (Except.error (), g)

/-- The `GameState::get_state`: the recursive board's state. -/
def GameState.get_state (g : GameState) : BoardState :=
  g.board.get_state

/-! ## The `InnerBoard` string parser (`game/board/inner.rs`, `errors.rs`) -/

/-- The `InvalidPlayerChar` from `errors.rs`. -/
inductive InvalidPlayerChar where
  | mk : InvalidPlayerChar
deriving DecidableEq

/-- The `InnerBoardFromStrError` from `errors.rs`: the two distinct parse errors. -/
inductive InnerBoardFromStrError where
  | InvalidLength : InnerBoardFromStrError
  | InvalidChars : InnerBoardFromStrError
deriving DecidableEq

/-- The `TryFrom<char> for Player` from `lib.rs`: `'O'` and `'X'` are the only
recognized glyphs. -/
def Player.tryFromChar (c : Char) : Except InvalidPlayerChar Player :=
  if c = 'O' then Except.ok Player.Circle
  else if c = 'X' then Except.ok Player.Cross
  else Except.error InvalidPlayerChar.mk

/-- Rust's `str::len`: the UTF-8 byte length of the string. -/
def strByteLen (s : List Char) : Nat :=
  (s.map Char.utf8Size).sum

/-- The `for (i, c) in s.chars().enumerate()` loop of
`FromStr for InnerBoard`: skips `'-'`, otherwise writes
`Some(Player::try_from(c)?)` into slot `i` (the source's `board_array[i] = …`
panics for `i ≥ 9`, embedded as a no-op; the length guard keeps `i < 9`). -/
def fromStrLoop : List Char → Nat → (Fin 9 → Option Player) →
    Except InnerBoardFromStrError (Fin 9 → Option Player)
  | [], _, arr => Except.ok arr
  | c :: rest, i, arr =>
    if c = '-' then fromStrLoop rest (i + 1) arr
    else
      match Player.tryFromChar c with
      | Except.error _ => Except.error InnerBoardFromStrError.InvalidChars
      | Except.ok p =>
        fromStrLoop rest (i + 1)
          (if h : i < 9 then Function.update arr ⟨i, h⟩ (some p) else arr)

/-- The `FromStr for InnerBoard` (`from_str`): rejects strings whose byte length
is not 9, then fills an all-empty array from the characters. -/
def InnerBoard.from_str (s : List Char) : Except InnerBoardFromStrError InnerBoard :=
  if strByteLen s ≠ 9 then Except.error InnerBoardFromStrError.InvalidLength
  else
    match fromStrLoop s 0 (fun _ => none) with
    | Except.error e => Except.error e
    | Except.ok arr => Except.ok ⟨arr⟩

/-! ## The legacy win detector (`board/mod.rs`)

The older `Board` trait reads cells through `get_cell(i)` rather than
indexing; its default `get_state` is otherwise the same algorithm.  The
three-iteration comparison loops (which `break` on the first mismatch) are
rendered as short-circuiting `&&` chains. -/

/-- Row check of the legacy `Board::get_state` in `board/mod.rs`. -/
def legacyRowCheck (ow : Nat → Option Player) (group : Nat) : Option Player :=
  match ow (group * 3) with
  | none => none
  | some p =>
    if (ow (group * 3 + 0) == some p) &&
        ((ow (group * 3 + 1) == some p) && (ow (group * 3 + 2) == some p))
    then some p
    else none

/-- Column check of the legacy `Board::get_state` in `board/mod.rs`. -/
def legacyColCheck (ow : Nat → Option Player) (group : Nat) : Option Player :=
  match ow group with
  | none => none
  | some p =>
    if (ow (group + 0 * 3) == some p) &&
        ((ow (group + 1 * 3) == some p) && (ow (group + 2 * 3) == some p))
    then some p
    else none

/-- Diagonal check of the legacy `Board::get_state` in `board/mod.rs`. -/
def legacyDiagCheck (ow : Nat → Option Player) : Option Player :=
  match ow 4 with
  | none => none
  | some p =>
    if ((ow 0 == some p) && (ow 8 == some p)) || ((ow 2 == some p) && (ow 6 == some p))
    then some p
    else none

/-- The legacy `Board::get_state` of `board/mod.rs`, as a function of the
owners reported by `get_cell(0) … get_cell(8)`. -/
def legacyGetState (ow : Nat → Option Player) : BoardState :=
  match legacyRowCheck ow 0 with
  | some p => BoardState.Over (BoardResult.Winner p)
  | none =>
  match legacyColCheck ow 0 with
  | some p => BoardState.Over (BoardResult.Winner p)
  | none =>
  match legacyRowCheck ow 1 with
  | some p => BoardState.Over (BoardResult.Winner p)
  | none =>
  match legacyColCheck ow 1 with
  | some p => BoardState.Over (BoardResult.Winner p)
  | none =>
  match legacyRowCheck ow 2 with
  | some p => BoardState.Over (BoardResult.Winner p)
  | none =>
  match legacyColCheck ow 2 with
  | some p => BoardState.Over (BoardResult.Winner p)
  | none =>
  match legacyDiagCheck ow with
  | some p => BoardState.Over (BoardResult.Winner p)
  | none =>
    if (List.range 9).all (fun cell => (ow cell).isSome) then BoardState.Over BoardResult.Draw
    else BoardState.InProgress

/-! ## Spec-side line predicates

The hypotheses of the win-detector claims quantify over the rows, columns and
diagonals of the 3×3 grid; these predicates spell them out (they are *not*
part of the embedded program). -/

/-- The eight lines of the 3×3 grid: three rows, three columns, two
diagonals, as index triples. -/
def lineIndices : List (Nat × Nat × Nat) :=
  [(0, 1, 2), (3, 4, 5), (6, 7, 8), (0, 3, 6), (1, 4, 7), (2, 5, 8), (0, 4, 8), (2, 4, 6)]

/-- The line `l` is fully owned by player `p`. -/
def lineOwnedBy (ow : Nat → Option Player) (l : Nat × Nat × Nat) (p : Player) : Prop :=
  ow l.1 = some p ∧ ow l.2.1 = some p ∧ ow l.2.2 = some p

instance (ow : Nat → Option Player) (l : Nat × Nat × Nat) (p : Player) :
    Decidable (lineOwnedBy ow l p) := by
  unfold lineOwnedBy; infer_instance

/-! ## Concrete boards used by the witnesses and failing inputs -/

/-- The spec's first concrete grid `[O,X,-,X,X,X,O,-,-]` (row-major): cross
owns the middle row. -/
def xwinBoard : InnerBoard :=
  ⟨fun i => [some Player.Circle, some Player.Cross, none, some Player.Cross, some Player.Cross,
    some Player.Cross, some Player.Circle, none, none].getD i none⟩

/-- The spec's drawn grid `[O,O,X,X,X,O,O,X,O]`: all nine cells owned, no
complete line. -/
def drawBoard : InnerBoard :=
  ⟨fun i => [some Player.Circle, some Player.Circle, some Player.Cross, some Player.Cross,
    some Player.Cross, some Player.Circle, some Player.Circle, some Player.Cross,
    some Player.Circle].getD i none⟩

/-! # Theorems -/

/-! ## Win-detector lemmas -/

/-- The three-iteration `all` over `List.range 3`, unfolded. -/
theorem range3_all (f : Nat → Bool) : (List.range 3).all f = (f 0 && (f 1 && f 2)) := by
  show (f 0 && (f 1 && (f 2 && true))) = (f 0 && (f 1 && f 2))
  rw [Bool.and_true]

/-- A firing row check means its row is fully owned by the returned player. -/
theorem rowCheck_eq_some {ow : Nat → Option Player} {g : Nat} {p : Player}
    (h : rowCheck ow g = some p) :
    ow (g * 3) = some p ∧ ow (g * 3 + 1) = some p ∧ ow (g * 3 + 2) = some p := by
  unfold rowCheck at h
  split at h
  · exact Option.noConfusion h
  · rename_i q hw
    rw [range3_all] at h
    split at h
    · rename_i hc
      injection h with h
      subst h
      simp only [Bool.and_eq_true, beq_iff_eq] at hc
      exact ⟨hw, hc.2.1, hc.2.2⟩
    · exact Option.noConfusion h

/-- A firing column check means its column is fully owned by the returned
player. -/
theorem colCheck_eq_some {ow : Nat → Option Player} {g : Nat} {p : Player}
    (h : colCheck ow g = some p) :
    ow g = some p ∧ ow (g + 3) = some p ∧ ow (g + 6) = some p := by
  unfold colCheck at h
  split at h
  · exact Option.noConfusion h
  · rename_i q hw
    rw [range3_all] at h
    split at h
    · rename_i hc
      injection h with h
      subst h
      simp only [Bool.and_eq_true, beq_iff_eq] at hc
      exact ⟨hw, hc.2.1, hc.2.2⟩
    · exact Option.noConfusion h

/-- A firing diagonal check means one of the diagonals is fully owned by the
returned player. -/
theorem diagCheck_eq_some {ow : Nat → Option Player} {p : Player}
    (h : diagCheck ow = some p) :
    ow 4 = some p ∧ ((ow 0 = some p ∧ ow 8 = some p) ∨ (ow 2 = some p ∧ ow 6 = some p)) := by
  unfold diagCheck at h
  split at h
  · exact Option.noConfusion h
  · rename_i q hw
    split at h
    · rename_i hc
      injection h with h
      subst h
      simp only [Bool.or_eq_true, Bool.and_eq_true, beq_iff_eq] at hc
      exact ⟨hw, hc⟩
    · exact Option.noConfusion h

/-- A fully owned row makes its row check fire. -/
theorem rowCheck_of_owned {ow : Nat → Option Player} {g : Nat} {p : Player}
    (h0 : ow (g * 3) = some p) (h1 : ow (g * 3 + 1) = some p)
    (h2 : ow (g * 3 + 2) = some p) : rowCheck ow g = some p := by
  have hc : (List.range 3).all (fun cell => ow (g * 3 + cell) == some p) = true := by
    rw [range3_all]
    simp [h0, h1, h2]
  unfold rowCheck
  simp only [h0]
  rw [if_pos hc]

/-- A fully owned column makes its column check fire. -/
theorem colCheck_of_owned {ow : Nat → Option Player} {g : Nat} {p : Player}
    (h0 : ow g = some p) (h1 : ow (g + 3) = some p)
    (h2 : ow (g + 6) = some p) : colCheck ow g = some p := by
  have hc : (List.range 3).all (fun cell => ow (g + cell * 3) == some p) = true := by
    rw [range3_all]
    simp [h0, h1, h2]
  unfold colCheck
  simp only [h0]
  rw [if_pos hc]

/-- A fully owned diagonal makes the diagonal check fire. -/
theorem diagCheck_of_owned {ow : Nat → Option Player} {p : Player}
    (h4 : ow 4 = some p)
    (h : (ow 0 = some p ∧ ow 8 = some p) ∨ (ow 2 = some p ∧ ow 6 = some p)) :
    diagCheck ow = some p := by
  have hc : (((ow 0 == some p) && (ow 8 == some p)) ||
      ((ow 2 == some p) && (ow 6 == some p))) = true := by
    rcases h with ⟨ha, hb⟩ | ⟨ha, hb⟩ <;> simp [ha, hb]
  unfold diagCheck
  simp only [h4]
  rw [if_pos hc]

/-- Whenever the win cascade fires, the line it found is fully owned by the
returned player. -/
theorem winCheck_eq_some {ow : Nat → Option Player} {p : Player}
    (h : winCheck ow = some p) : ∃ l ∈ lineIndices, lineOwnedBy ow l p := by
  unfold winCheck at h
  split at h
  · rename_i hq
    injection h with h
    subst h
    exact ⟨(0, 1, 2), by decide, rowCheck_eq_some hq⟩
  split at h
  · rename_i hq
    injection h with h
    subst h
    obtain ⟨ha, hb, hd⟩ := colCheck_eq_some hq
    exact ⟨(0, 3, 6), by decide, ha, hb, hd⟩
  split at h
  · rename_i hq
    injection h with h
    subst h
    exact ⟨(3, 4, 5), by decide, rowCheck_eq_some hq⟩
  split at h
  · rename_i hq
    injection h with h
    subst h
    obtain ⟨ha, hb, hd⟩ := colCheck_eq_some hq
    exact ⟨(1, 4, 7), by decide, ha, hb, hd⟩
  split at h
  · rename_i hq
    injection h with h
    subst h
    exact ⟨(6, 7, 8), by decide, rowCheck_eq_some hq⟩
  split at h
  · rename_i hq
    injection h with h
    subst h
    obtain ⟨ha, hb, hd⟩ := colCheck_eq_some hq
    exact ⟨(2, 5, 8), by decide, ha, hb, hd⟩
  obtain ⟨h4, hrest⟩ := diagCheck_eq_some h
  rcases hrest with ⟨ha, hb⟩ | ⟨ha, hb⟩
  · exact ⟨(0, 4, 8), by decide, ha, h4, hb⟩
  · exact ⟨(2, 4, 6), by decide, ha, h4, hb⟩

/-- When the win cascade does not fire, no line is fully owned. -/
theorem winCheck_eq_none {ow : Nat → Option Player}
    (h : winCheck ow = none) : ∀ l ∈ lineIndices, ∀ p, ¬ lineOwnedBy ow l p := by
  unfold winCheck at h
  split at h
  · exact Option.noConfusion h
  rename_i hr0
  split at h
  · exact Option.noConfusion h
  rename_i hc0
  split at h
  · exact Option.noConfusion h
  rename_i hr1
  split at h
  · exact Option.noConfusion h
  rename_i hc1
  split at h
  · exact Option.noConfusion h
  rename_i hr2
  split at h
  · exact Option.noConfusion h
  rename_i hc2
  intro l hl p hown
  simp only [lineIndices, List.mem_cons, List.not_mem_nil, or_false] at hl
  rcases hl with rfl | rfl | rfl | rfl | rfl | rfl | rfl | rfl
  · obtain ⟨h0, h1, h2⟩ := hown
    have := rowCheck_of_owned (g := 0) h0 h1 h2
    rw [hr0] at this
    exact Option.noConfusion this
  · obtain ⟨h0, h1, h2⟩ := hown
    have := rowCheck_of_owned (g := 1) h0 h1 h2
    rw [hr1] at this
    exact Option.noConfusion this
  · obtain ⟨h0, h1, h2⟩ := hown
    have := rowCheck_of_owned (g := 2) h0 h1 h2
    rw [hr2] at this
    exact Option.noConfusion this
  · obtain ⟨h0, h1, h2⟩ := hown
    have := colCheck_of_owned (g := 0) h0 h1 h2
    rw [hc0] at this
    exact Option.noConfusion this
  · obtain ⟨h0, h1, h2⟩ := hown
    have := colCheck_of_owned (g := 1) h0 h1 h2
    rw [hc1] at this
    exact Option.noConfusion this
  · obtain ⟨h0, h1, h2⟩ := hown
    have := colCheck_of_owned (g := 2) h0 h1 h2
    rw [hc2] at this
    exact Option.noConfusion this
  · obtain ⟨h0, h4, h8⟩ := hown
    have := diagCheck_of_owned h4 (Or.inl ⟨h0, h8⟩)
    rw [h] at this
    exact Option.noConfusion this
  · obtain ⟨h2, h4, h6⟩ := hown
    have := diagCheck_of_owned h4 (Or.inr ⟨h2, h6⟩)
    rw [h] at this
    exact Option.noConfusion this

/-- Evaluation of `get_state` when the cascade fires. -/
theorem getState_of_winCheck_some {ow : Nat → Option Player} {p : Player}
    (h : winCheck ow = some p) :
    Board.getState ow = BoardState.Over (BoardResult.Winner p) := by
  unfold Board.getState
  simp only [h]

/-- Evaluation of `get_state` when the cascade does not fire: the draw loop decides. -/
theorem getState_of_winCheck_none {ow : Nat → Option Player}
    (h : winCheck ow = none) :
    Board.getState ow =
      if (List.range 9).all (fun cell => (ow cell).isSome) then BoardState.Over BoardResult.Draw
      else BoardState.InProgress := by
  unfold Board.getState
  simp only [h]

/-- C4: on every 9-cell grid (any cell kind of the repository reports
availability through the trait-default `owner().is_none()`) in which no row,
column, or diagonal is fully owned by one player, the win detector returns
`Over Draw` iff no cell reports available; in particular it returns `Over
Draw` on every fully-owned such grid. -/
theorem c4_draw_iff_no_cell_available (ow : Nat → Option Player)
    (hnl : ∀ l ∈ lineIndices, ∀ p, ¬ lineOwnedBy ow l p) :
    (Board.getState ow = BoardState.Over BoardResult.Draw ↔
      ∀ i < 9, Cell.defaultIsAvailable (ow i) = false)
    ∧ ((∀ i < 9, (ow i).isSome = true) →
      Board.getState ow = BoardState.Over BoardResult.Draw) := by
  have hw : winCheck ow = none := by
    cases hq : winCheck ow with
    | none => rfl
    | some q =>
      obtain ⟨l, hl, hown⟩ := winCheck_eq_some hq
      exact absurd hown (hnl l hl q)
  have hgs := getState_of_winCheck_none hw
  have hiff : ((List.range 9).all (fun cell => (ow cell).isSome) = true) ↔
      ∀ i < 9, Cell.defaultIsAvailable (ow i) = false := by
    simp only [List.all_eq_true, List.mem_range, Cell.defaultIsAvailable]
    constructor
    · intro hall i hi
      have hsome := hall i hi
      cases hcell : ow i
      · rw [hcell] at hsome
        exact absurd hsome (by decide)
      · rfl
    · intro hav i hi
      have hnav := hav i hi
      cases hcell : ow i
      · rw [hcell] at hnav
        exact absurd hnav (by decide)
      · rfl
  constructor
  · rw [hgs]
    by_cases hall : (List.range 9).all (fun cell => (ow cell).isSome) = true
    · rw [if_pos hall]
      exact ⟨fun _ => hiff.mp hall, fun _ => rfl⟩
    · rw [if_neg hall]
      constructor
      · intro habs
        exact absurd habs (by decide)
      · intro hav
        exact absurd (hiff.mpr hav) hall
  · intro hfull
    rw [hgs, if_pos]
    simp only [List.all_eq_true, List.mem_range]
    exact hfull

/-- Witness for C4 at the fully-owned no-line grid `[O,O,X,X,X,O,O,X,O]`. -/
theorem c4_witness :
    (Board.getState (fun i => drawBoard.get i) = BoardState.Over BoardResult.Draw ↔
      ∀ i < 9, Cell.defaultIsAvailable (drawBoard.get i) = false)
    ∧ ((∀ i < 9, (drawBoard.get i).isSome = true) →
      Board.getState (fun i => drawBoard.get i) = BoardState.Over BoardResult.Draw) :=
  c4_draw_iff_no_cell_available (fun i => drawBoard.get i) (by decide)

/-- C6: on every 9-cell grid in which exactly one line is fully owned by one
player, the win detector returns `Over (Winner p)` for that player `p` —
whichever of the eight lines it is and wherever that line sits in the fixed
row/column/diagonal evaluation order. -/
theorem c6_unique_line_winner (ow : Nat → Option Player) (l : Nat × Nat × Nat) (p : Player)
    (hl : l ∈ lineIndices) (hown : lineOwnedBy ow l p)
    (huniq : ∀ l' ∈ lineIndices, ∀ p', lineOwnedBy ow l' p' → l' = l ∧ p' = p) :
    Board.getState ow = BoardState.Over (BoardResult.Winner p) := by
  cases hq : winCheck ow with
  | some q =>
    obtain ⟨l', hl', hown'⟩ := winCheck_eq_some hq
    obtain ⟨-, rfl⟩ := huniq l' hl' q hown'
    exact getState_of_winCheck_some hq
  | none => exact absurd hown (winCheck_eq_none hq l hl p)

/-- Witness for C6 at `[O,X,-,X,X,X,O,-,-]`: the unique fully-owned line is
the middle row, owned by cross. -/
theorem c6_witness :
    Board.getState (fun i => xwinBoard.get i) =
      BoardState.Over (BoardResult.Winner Player.Cross) :=
  c6_unique_line_winner (fun i => xwinBoard.get i) (3, 4, 5) Player.Cross
    (by decide) (by decide) (by decide)

/-- C7: immediately after any `RecursiveCell::set_cell`, the cached state
equals the state freshly computed from the mutated inner board — after every
mutation, by construction of `set_cell`. -/
theorem c7_cache_consistency (c : RecursiveCell) (cell : Nat) (owner : Option Player) :
    (c.set_cell cell owner).state = (c.set_cell cell owner).board.get_state := rfl

/-! ## C10: the legacy and current win detectors agree -/

/-- The legacy row check equals the current one. -/
theorem legacyRowCheck_eq (ow : Nat → Option Player) (g : Nat) :
    legacyRowCheck ow g = rowCheck ow g := by
  unfold legacyRowCheck rowCheck
  cases hw : ow (g * 3) <;> simp [range3_all]

/-- The legacy column check equals the current one. -/
theorem legacyColCheck_eq (ow : Nat → Option Player) (g : Nat) :
    legacyColCheck ow g = colCheck ow g := by
  unfold legacyColCheck colCheck
  cases hw : ow g <;> simp [range3_all]

/-- The legacy diagonal check equals the current one. -/
theorem legacyDiagCheck_eq (ow : Nat → Option Player) :
    legacyDiagCheck ow = diagCheck ow := rfl

/-- C10: the legacy `Board::get_state` of `board/mod.rs` (cells read via
`get_cell`) and the current `Board::get_state` of `game/board/mod.rs` (cells
read via indexing) return the same `BoardState` whenever the nine cells
report the same owners. -/
theorem c10_legacy_detector_equivalence :
    ∀ ow : Nat → Option Player, legacyGetState ow = Board.getState ow := by
  intro ow
  unfold legacyGetState Board.getState winCheck
  simp only [legacyRowCheck_eq, legacyColCheck_eq, legacyDiagCheck_eq]
  cases rowCheck ow 0 <;> cases colCheck ow 0 <;> cases rowCheck ow 1 <;>
    cases colCheck ow 1 <;> cases rowCheck ow 2 <;> cases colCheck ow 2 <;> rfl

/-! ## C1: the forced-outer-cell is never updated by `make_move` -/

/-- C1 fails on the code: from a fresh game, the opening move at outer cell 4,
inner cell 0 succeeds, but `make_move` leaves `cell_to_play` untouched
(`none`, not `some 0`), and the next `available_moves()` still offers
positions outside outer cell 0 — e.g. `(1, 1)`. -/
theorem c1_forced_cell_not_updated :
    (GameState.new.make_move (CellPosition.new 4 0)).1 = Except.ok ()
    ∧ (GameState.new.make_move (CellPosition.new 4 0)).2.cell_to_play = none
    ∧ CellPosition.new 1 1 ∈
        (GameState.new.make_move (CellPosition.new 4 0)).2.available_moves := by
  decide

/-! ## C2: a drawn recursive cell still reports available -/

/-- C2 fails on the code: `RecursiveCell` does not override the trait-default
`is_available`, which is `owner().is_none()`, and a drawn sub-game has no
owner — so a recursive cell whose cached outcome is `Over Draw` reports
`is_available() = true`, where the claim requires `false`. -/
theorem c2_draw_cell_reports_available :
    (RecursiveCell.fromInner drawBoard).state = BoardState.Over BoardResult.Draw
    ∧ (RecursiveCell.fromInner drawBoard).is_available = true := by
  decide

/-! ## C5: `make_move` errors exactly on illegal positions, without mutating -/

/-- C5: `make_move(position)` returns the illegal-move error iff `position`
is not in the current `available_moves()`, and on that error the whole game
state is unchanged.  The hypothesis is the assertion `available_moves`
makes about a forced cell (a panicking execution returns nothing at all). -/
theorem c5_make_move_error_iff_illegal (g : GameState) (p : CellPosition)
    (_hc : ∀ c, g.cell_to_play = some c → c < 9 ∧ (g.board.get c).is_available = true) :
    ((g.make_move p).1 = Except.error () ↔ p ∉ g.available_moves)
    ∧ ((g.make_move p).1 = Except.error () → (g.make_move p).2 = g) := by
  unfold GameState.make_move
  by_cases hmem : p ∈ g.available_moves
  · rw [if_pos hmem]
    constructor
    · constructor
      · intro habs
        exact Except.noConfusion habs
      · intro hnotmem
        exact absurd hmem hnotmem
    · intro habs
      exact Except.noConfusion habs
  · rw [if_neg hmem]
    exact ⟨⟨fun _ => hmem, fun _ => rfl⟩, fun _ => rfl⟩

/-- Witness for C5 at the fresh game and the out-of-board position `(0, 9)`. -/
theorem c5_witness :
    ((GameState.new.make_move (CellPosition.new 0 9)).1 = Except.error () ↔
      CellPosition.new 0 9 ∉ GameState.new.available_moves)
    ∧ ((GameState.new.make_move (CellPosition.new 0 9)).1 = Except.error () →
      (GameState.new.make_move (CellPosition.new 0 9)).2 = GameState.new) :=
  c5_make_move_error_iff_illegal GameState.new (CellPosition.new 0 9)
    (fun _ h => Option.noConfusion h)

/-! ## C3/C9: the legal-move set and successful moves -/

/-- Membership in `InnerBoard::available_cells`: the pairs `(i, cell i)` with
`i < 9` whose leaf cell is empty. -/
theorem mem_inner_available_cells {b : InnerBoard} {x : Nat × Option Player} :
    x ∈ b.available_cells ↔ x.1 < 9 ∧ x.2 = b.get x.1 ∧ b.get x.1 = none := by
  obtain ⟨i, o⟩ := x
  unfold InnerBoard.available_cells Cell.defaultIsAvailable
  simp only [List.mem_filter, List.mem_map, List.mem_range, Prod.mk.injEq,
    Option.isNone_iff_eq_none]
  constructor
  · rintro ⟨⟨j, hj, rfl, rfl⟩, hnone⟩
    exact ⟨hj, rfl, hnone⟩
  · rintro ⟨hi, rfl, hnone⟩
    exact ⟨⟨i, hi, rfl, rfl⟩, hnone⟩

/-- Membership in `RecursiveBoard::available_cells`: the pairs `(i, cell i)`
with `i < 9` whose recursive cell reports available. -/
theorem mem_recursive_available_cells {b : RecursiveBoard} {x : Nat × RecursiveCell} :
    x ∈ b.available_cells ↔ x.1 < 9 ∧ x.2 = b.get x.1 ∧ (b.get x.1).is_available = true := by
  obtain ⟨i, c⟩ := x
  unfold RecursiveBoard.available_cells
  simp only [List.mem_filter, List.mem_map, List.mem_range, Prod.mk.injEq]
  constructor
  · rintro ⟨⟨j, hj, rfl, rfl⟩, hav⟩
    exact ⟨hj, rfl, hav⟩
  · rintro ⟨hi, rfl, hav⟩
    exact ⟨⟨i, hi, rfl, rfl⟩, hav⟩

/-- Membership in `GameState::available_moves`, in both modes. -/
theorem mem_available_moves {g : GameState} {p : CellPosition} :
    p ∈ g.available_moves ↔
      (match g.cell_to_play with
       | some c => p.outer_cell = c ∧ p.inner_cell < 9 ∧
           (g.board.get c).board.get p.inner_cell = none
       | none => p.outer_cell < 9 ∧ (g.board.get p.outer_cell).is_available = true ∧
           p.inner_cell < 9 ∧ (g.board.get p.outer_cell).board.get p.inner_cell = none) := by
  obtain ⟨po, pi⟩ := p
  cases hcp : g.cell_to_play with
  | some c =>
    unfold GameState.available_moves
    rw [hcp]
    simp only [List.mem_map, CellPosition.new, CellPosition.mk.injEq]
    constructor
    · rintro ⟨x, hx, rfl, rfl⟩
      obtain ⟨hlt, hxeq, hnone⟩ := mem_inner_available_cells.mp hx
      exact ⟨rfl, hlt, hnone⟩
    · rintro ⟨rfl, hlt, hnone⟩
      exact ⟨(pi, none), mem_inner_available_cells.mpr ⟨hlt, hnone.symm, hnone⟩, rfl, rfl⟩
  | none =>
    unfold GameState.available_moves
    rw [hcp]
    simp only [List.mem_flatMap, List.mem_map, CellPosition.new, CellPosition.mk.injEq]
    constructor
    · rintro ⟨x, hx, y, hy, rfl, rfl⟩
      obtain ⟨hxlt, hxeq, hxav⟩ := mem_recursive_available_cells.mp hx
      obtain ⟨hylt, hyeq, hynone⟩ := mem_inner_available_cells.mp hy
      rw [hxeq] at hynone
      exact ⟨hxlt, hxav, hylt, hynone⟩
    · rintro ⟨hlt, hav, hilt, hnone⟩
      exact ⟨(po, g.board.get po), mem_recursive_available_cells.mpr ⟨hlt, rfl, hav⟩,
        (pi, none), mem_inner_available_cells.mpr ⟨hilt, hnone.symm, hnone⟩, rfl, rfl⟩

/-- C3: `available_moves()` is exactly the legal-move set of the current
mode.  Constrained (`cell_to_play = some c`, with the recursive cell at `c`
available as the source asserts): exactly the `(c, inner)` with `inner` an
available leaf of the inner board at `c`.  Free (`cell_to_play = none`):
exactly the `(o, inner)` with `o` an available outer cell and `inner` an
available leaf of the inner board at `o`. -/
theorem c3_available_moves_characterization (g : GameState)
    (_hc : ∀ c, g.cell_to_play = some c → c < 9 ∧ (g.board.get c).is_available = true)
    (p : CellPosition) :
    p ∈ g.available_moves ↔
      (match g.cell_to_play with
       | some c => p.outer_cell = c ∧ p.inner_cell < 9 ∧
           (g.board.get c).board.get p.inner_cell = none
       | none => p.outer_cell < 9 ∧ (g.board.get p.outer_cell).is_available = true ∧
           p.inner_cell < 9 ∧ (g.board.get p.outer_cell).board.get p.inner_cell = none) :=
  mem_available_moves

/-- Witness for C3 at the fresh game (free mode) and position `(0, 0)`. -/
theorem c3_witness :
    CellPosition.new 0 0 ∈ GameState.new.available_moves ↔
      ((CellPosition.new 0 0).outer_cell < 9
        ∧ (GameState.new.board.get (CellPosition.new 0 0).outer_cell).is_available = true
        ∧ (CellPosition.new 0 0).inner_cell < 9
        ∧ (GameState.new.board.get (CellPosition.new 0 0).outer_cell).board.get
            (CellPosition.new 0 0).inner_cell = none) :=
  c3_available_moves_characterization GameState.new (fun _ h => Option.noConfusion h)
    (CellPosition.new 0 0)

/-- Writing through `RecursiveBoard::set_cell` and reading the same outer
cell back gives the mutated recursive cell. -/
theorem RecursiveBoard.get_set_cell_outer {b : RecursiveBoard} {pos : CellPosition}
    {owner : Option Player} (h : pos.outer_cell < 9) :
    (b.set_cell pos owner).get pos.outer_cell =
      (b.get pos.outer_cell).set_cell pos.inner_cell owner := by
  unfold RecursiveBoard.set_cell RecursiveBoard.get
  simp only [dif_pos h]
  exact Function.update_same _ _ _

/-- Writing a leaf cell and reading it back gives the written owner. -/
theorem InnerBoard.get_set_cell_leaf {b : InnerBoard} {cell : Nat} {owner : Option Player}
    (h : cell < 9) : (b.set_cell cell owner).get cell = owner := by
  unfold InnerBoard.set_cell InnerBoard.get
  simp only [dif_pos h]
  exact Function.update_same _ _ _

/-- C9: for every position in the current `available_moves()`, `make_move`
succeeds, writes the active player into the addressed leaf cell, and
advances the turn to that player's successor (circle and cross
alternating). -/
theorem c9_make_move_success (g : GameState) (p : CellPosition)
    (hc : ∀ c, g.cell_to_play = some c → c < 9 ∧ (g.board.get c).is_available = true)
    (hp : p ∈ g.available_moves) :
    (g.make_move p).1 = Except.ok ()
    ∧ ((g.make_move p).2.board.get p.outer_cell).board.get p.inner_cell = some g.player_turn
    ∧ (g.make_move p).2.player_turn = g.player_turn.next
    ∧ Player.Circle.next = Player.Cross ∧ Player.Cross.next = Player.Circle := by
  have hmem := mem_available_moves.mp hp
  have hbounds : p.outer_cell < 9 ∧ p.inner_cell < 9 := by
    cases hcp : g.cell_to_play with
    | some c =>
      simp only [hcp] at hmem
      obtain ⟨ho, hi, -⟩ := hmem
      exact ⟨by rw [ho]; exact (hc c hcp).1, hi⟩
    | none =>
      simp only [hcp] at hmem
      obtain ⟨ho, -, hi, -⟩ := hmem
      exact ⟨ho, hi⟩
  obtain ⟨ho, hi⟩ := hbounds
  unfold GameState.make_move
  rw [if_pos hp]
  refine ⟨rfl, ?_, rfl, rfl, rfl⟩
  show ((g.board.set_cell p (some g.player_turn)).get p.outer_cell).board.get p.inner_cell
      = some g.player_turn
  rw [RecursiveBoard.get_set_cell_outer ho]
  show ((g.board.get p.outer_cell).board.set_cell p.inner_cell (some g.player_turn)).get
      p.inner_cell = some g.player_turn
  exact InnerBoard.get_set_cell_leaf hi

/-! ## C8: the `InnerBoard` string parser -/

/-- The fill loop returns the character error whenever the remaining input
contains a character that is neither `'-'` nor a recognized glyph. -/
theorem fromStrLoop_error :
    ∀ s : List Char, (∃ c ∈ s, c ≠ '-' ∧ c ≠ 'O' ∧ c ≠ 'X') →
      ∀ (i : Nat) (arr : Fin 9 → Option Player),
        fromStrLoop s i arr = Except.error InnerBoardFromStrError.InvalidChars := by
  intro s
  induction s with
  | nil =>
    intro hbad
    obtain ⟨c, hc, -⟩ := hbad
    exact absurd hc (List.not_mem_nil c)
  | cons c rest ih =>
    intro hbad i arr
    have hrest : c = '-' ∨ c = 'O' ∨ c = 'X' →
        ∃ d ∈ rest, d ≠ '-' ∧ d ≠ 'O' ∧ d ≠ 'X' := by
      intro hgood
      obtain ⟨d, hd, hbd⟩ := hbad
      rcases List.mem_cons.mp hd with rfl | hd2
      · rcases hgood with h | h | h
        · exact absurd h hbd.1
        · exact absurd h hbd.2.1
        · exact absurd h hbd.2.2
      · exact ⟨d, hd2, hbd⟩
    unfold fromStrLoop
    by_cases hdash : c = '-'
    · rw [if_pos hdash]
      exact ih (hrest (Or.inl hdash)) (i + 1) arr
    · rw [if_neg hdash]
      by_cases hO : c = 'O'
      · have htry : Player.tryFromChar c = Except.ok Player.Circle := by
          unfold Player.tryFromChar
          rw [if_pos hO]
        rw [htry]
        exact ih (hrest (Or.inr (Or.inl hO))) (i + 1) _
      · by_cases hX : c = 'X'
        · have htry : Player.tryFromChar c = Except.ok Player.Cross := by
            unfold Player.tryFromChar
            rw [if_neg hO, if_pos hX]
          rw [htry]
          exact ih (hrest (Or.inr (Or.inr hX))) (i + 1) _
        · have htry : Player.tryFromChar c = Except.error InvalidPlayerChar.mk := by
            unfold Player.tryFromChar
            rw [if_neg hO, if_neg hX]
          rw [htry]

/-- C8: `InnerBoard` deserialization fails with the length error on every
input whose (byte) length is not 9, fails with the character error on every
length-9 input containing a character that is neither `'-'` nor a recognized
player glyph, and on `"OX-XXXO--"` reconstructs exactly the grid
`[O, X, empty, X, X, X, O, empty, empty]`. -/
theorem c8_from_str_spec :
    (∀ s : List Char, strByteLen s ≠ 9 →
      InnerBoard.from_str s = Except.error InnerBoardFromStrError.InvalidLength)
    ∧ (∀ s : List Char, strByteLen s = 9 → (∃ c ∈ s, c ≠ '-' ∧ c ≠ 'O' ∧ c ≠ 'X') →
      InnerBoard.from_str s = Except.error InnerBoardFromStrError.InvalidChars)
    ∧ InnerBoard.from_str ['O', 'X', '-', 'X', 'X', 'X', 'O', '-', '-']
        = Except.ok xwinBoard := by
  refine ⟨?_, ?_, by decide⟩
  · intro s h
    unfold InnerBoard.from_str
    rw [if_pos h]
  · intro s hlen hbad
    unfold InnerBoard.from_str
    rw [if_neg (not_not_intro hlen), fromStrLoop_error s hbad 0 (fun _ => none)]

/-- Witness for C8: the length-8 input `"OX-XXXO-"` takes the length error
and `"OX-XXXOa-"` takes the character error. -/
theorem c8_witness :
    InnerBoard.from_str ['O', 'X', '-', 'X', 'X', 'X', 'O', '-']
      = Except.error InnerBoardFromStrError.InvalidLength
    ∧ InnerBoard.from_str ['O', 'X', '-', 'X', 'X', 'X', 'O', 'a', '-']
      = Except.error InnerBoardFromStrError.InvalidChars :=
  ⟨c8_from_str_spec.1 _ (by decide), c8_from_str_spec.2.1 _ (by decide) ⟨'a', by decide⟩⟩

/-- Witness for C9: the opening move `(4, 0)` of the fresh game. -/
theorem c9_witness :
    (GameState.new.make_move (CellPosition.new 4 0)).1 = Except.ok ()
    ∧ ((GameState.new.make_move (CellPosition.new 4 0)).2.board.get
        (CellPosition.new 4 0).outer_cell).board.get (CellPosition.new 4 0).inner_cell
        = some GameState.new.player_turn
    ∧ (GameState.new.make_move (CellPosition.new 4 0)).2.player_turn
        = GameState.new.player_turn.next
    ∧ Player.Circle.next = Player.Cross ∧ Player.Cross.next = Player.Circle :=
  c9_make_move_success GameState.new (CellPosition.new 4 0)
    (fun _ h => Option.noConfusion h) (by decide)

end UltimateTTT
